import Mathlib

/-!
Verification of the tealeaf accuracy-benchmark token-accounting scripts
(count_tokens.py, validate_tokens.py, generate_charts.py).

Strings are modelled as `List Char`; Python integers as `Nat`/`Int`;
Python float arithmetic on percentages as exact rational arithmetic (`ℚ`);
Python expressions that can raise as `Option`.
-/

namespace TeaLeaf

/-- Test whether the list `l` starts with the pattern `pat`
(the test Python performs at each candidate offset of `str.find`). -/
def leadsWith : List Char → List Char → Bool
  | [], _ => true
  | _ :: _, [] => false
  | a :: ps, b :: ls => a = b && leadsWith ps ls

/-- Index of the first occurrence of `pat` in `text`, if any
(`text.find(pat)` before its `-1` encoding). -/
def findSub (text pat : List Char) : Option Nat :=
  if leadsWith pat text then some 0
  else
    match text with
    | [] => none
    | _ :: t => (findSub t pat).map (· + 1)

/-- Python `text.find(pat)`: first index, or `-1` when absent. -/
def strFind (text pat : List Char) : Int :=
  match findSub text pat with
  | some i => (i : Int)
  | none => -1

/-- Python slice `l[a:b]` with step 1: negative indices count from the
end, and both bounds are clamped to the list. -/
def pySlice (l : List Char) (a b : Int) : List Char :=
  let n : Int := (l.length : Int)
  let lo : Nat := (if a < 0 then max (n + a) 0 else min a n).toNat
  let hi : Nat := (if b < 0 then max (n + b) 0 else min b n).toNat
  (l.take hi).drop lo

/-- Python `s.endswith(suf)`. -/
def endsWith (s suf : List Char) : Bool :=
  leadsWith suf.reverse s.reverse

/-- Python `s.removesuffix(suf)`. -/
def removeSuf (s suf : List Char) : List Char :=
  if endsWith s suf then s.take (s.length - suf.length) else s

/-- Python `s.lower()` over basic latin. -/
def pyLower (s : List Char) : List Char := s.map Char.toLower

/-- Python `s.upper()` over basic latin. -/
def pyUpper (s : List Char) : List Char := s.map Char.toUpper

/-- Python `s.lstrip(str.of newline)`: drop leading newline characters. -/
def lstripNL : List Char → List Char
  | '\n' :: t => lstripNL t
  | l => l

/-- A Python `dict` keyed by `(taskId, provider)` pairs, modelled as an
association list with in-place replacement on repeated keys. -/
def dinsert : List ((String × String) × Nat) → String × String → Nat →
    List ((String × String) × Nat)
  | [], k, v => [(k, v)]
  | (k', v') :: t, k, v =>
    if k' = k then (k, v) :: t else (k', v') :: dinsert t k v

/-- Lookup in the association-list model of a Python `dict`. -/
def dlookup : List ((String × String) × Nat) → String × String → Option Nat
  | [], _ => none
  | (k', v) :: t, k => if k' = k then some v else dlookup t k

/-- Python `dict.get(key, default)`. -/
def dget (m : List ((String × String) × Nat)) (k : String × String) (d : Nat) : Nat :=
  match dlookup m k with
  | some v => v
  | none => d

/-- Stable ascending insertion, building Python `sorted` on rationals. -/
def insertAsc (a : ℚ) : List ℚ → List ℚ
  | [] => [a]
  | b :: t => if a ≤ b then a :: b :: t else b :: insertAsc a t

/-- Python `sorted` on a list of rationals (ascending). -/
def pysorted (l : List ℚ) : List ℚ := l.foldr insertAsc []

/-- Python true division on exact rationals: raises (`none`) on a zero
denominator, as `ZeroDivisionError` does. -/
def pydiv (a b : ℚ) : Option ℚ := if b = 0 then none else some (a / b)

/-- The characters task IDs are drawn from: uppercase ASCII letters,
digits, and hyphens. -/
def okChars : List Char := "ABCDEFGHIJKLMNOPQRSTUVWXYZ0123456789-".toList

/-- A character a task ID may contain. -/
def charOK (c : Char) : Prop := c ∈ okChars

instance charOK_dec (c : Char) : Decidable (charOK c) :=
  inferInstanceAs (Decidable (c ∈ okChars))

namespace CountTokens

/-- The marker line searched for by `extract_prompt` in count_tokens.py. -/
def markerCT : List Char := "=== PROMPT ===".toList

/-- `extract_prompt(filepath)` from count_tokens.py, over the file text:
returns everything after the first occurrence of the marker with leading
newlines stripped, or the entire text when the marker is absent. -/
def extract_prompt (text : List Char) : List Char :=
  match findSub text markerCT with
  | none => text
  | some i => lstripNL (text.drop (i + markerCT.length))

/-- The closed format-tag list of count_tokens.py. -/
def FORMATS : List (List Char) := ["tl".toList, "json".toList, "toon".toList]

/-- The `for fmt in FORMATS` loop body of `parse_filename`. -/
def pfLoop (stem : List Char) : List (List Char) → List Char × List Char
  | [] => (pyUpper stem, "unknown".toList)
  | fmt :: rest =>
    let suf := '-' :: fmt
    if endsWith stem suf then
      (pyUpper (stem.take (stem.length - suf.length)), fmt)
    else pfLoop stem rest

/-- `parse_filename(filename)` from count_tokens.py: strip `.txt`, match a
known `-{fmt}` suffix, and uppercase the remaining stem as the task ID. -/
def parse_filename (filename : List Char) : List Char × List Char :=
  pfLoop (removeSuf filename ".txt".toList) FORMATS

/-- The per-task and total percentage-difference computations of
count_tokens.py (`((a - b) / b * 100) if b else 0`). -/
def fmt_vs_json_pct (fmtTok jsonTok : Nat) : ℚ :=
  if jsonTok = 0 then 0
  else ((fmtTok : ℚ) - (jsonTok : ℚ)) / (jsonTok : ℚ) * 100

end CountTokens

namespace ValidateTokens

/-- The marker (including the two newlines) searched for by
`extract_prompt` in validate_tokens.py. -/
def markerVT : List Char := "=== PROMPT ===\n\n".toList

/-- `extract_prompt(filepath)` from validate_tokens.py, over the file
text: returns the text after the marker, and raises `ValueError`
(modelled as `none`) when the marker is absent. -/
def extract_prompt (text : List Char) : Option (List Char) :=
  (findSub text markerVT).map fun i => text.drop (i + markerVT.length)

/-- `data_savings_pct` of validate_tokens.py:
`(1 - tl / json) * 100 if json > 0 else 0`. -/
def data_savings_pct (tlTok jsonTok : Nat) : ℚ :=
  if 0 < jsonTok then (1 - (tlTok : ℚ) / (jsonTok : ℚ)) * 100 else 0

/-- The weighted total data savings of validate_tokens.py: the same
formula applied to the summed numerator and summed denominator across
all tasks.  A task is a pair `(tl_data_tokens, json_data_tokens)`. -/
def total_data_savings (rs : List (Nat × Nat)) : ℚ :=
  let ttl := (rs.map Prod.fst).sum
  let tjson := (rs.map Prod.snd).sum
  if 0 < tjson then (1 - (ttl : ℚ) / (tjson : ℚ)) * 100 else 0

/-- The median data savings of validate_tokens.py: sort the per-task
percentages and take the middle element, averaging the two middle
elements when the count is even. -/
def median_savings (rs : List (Nat × Nat)) : ℚ :=
  let vs := pysorted (rs.map fun r => data_savings_pct r.1 r.2)
  let n := vs.length
  if n % 2 = 0 then (vs.getD (n / 2 - 1) 0 + vs.getD (n / 2) 0) / 2
  else vs.getD (n / 2) 0

/-- The aggregate validation difference of validate_tokens.py:
`abs(total_tl - api_total) / api_total * 100 if api_total > 0 else 0`. -/
def agg_diff_pct (totalTl apiTotal : ℚ) : ℚ :=
  if 0 < apiTotal then |totalTl - apiTotal| / apiTotal * 100 else 0

/-- The final validation verdict of validate_tokens.py. -/
def verdict (d : ℚ) : String :=
  if d ≤ 1 then "PASS" else if d ≤ 5 then "MARGINAL" else "FAIL"

/-- `parse_api_tokens` of validate_tokens.py, over the ordered sequence
of regex matches `(task_id, provider, input_tokens)` found in the
document: each match stores into `tokens[task_id][provider]`,
overwriting any earlier value for the same key pair. -/
def parse_api_tokens (rows : List (String × String × Nat)) :
    List ((String × String) × Nat) :=
  rows.foldl (fun m r => dinsert m (r.1, r.2.1) r.2.2) []

/-- Length of the longest common leading run of two strings: the
`prefix_len` loop of `split_instruction_and_data` in validate_tokens.py. -/
def commonPreLen : List Char → List Char → Nat
  | a :: as, b :: bs => if a = b then commonPreLen as bs + 1 else 0
  | _, _ => 0

/-- The suffix length computed by `split_instruction_and_data` after the
overlap clamp, as a Python integer (`Int`): the common trailing run,
clamped to `min(len(A), len(B)) - prefix_len` when it would overlap the
common leading run. -/
def sufLenInt (A B : List Char) : Int :=
  let p := commonPreLen A B
  let s0 := commonPreLen A.reverse B.reverse
  if (p : Int) + (s0 : Int) > ((min A.length B.length : Nat) : Int) then
    ((min A.length B.length : Nat) : Int) - (p : Int)
  else (s0 : Int)

/-- `split_instruction_and_data(tl_prompt, json_prompt)` from
validate_tokens.py: returns `(instruction_text, tl_data, json_data)`
where the instruction text is the common leading run concatenated with
the (clamped) common trailing run. -/
def split_instruction_and_data (A B : List Char) :
    List Char × List Char × List Char :=
  let p := commonPreLen A B
  let s := (sufLenInt A B).toNat
  let instrPre := A.take p
  let instrSuf := if s > 0 then A.drop (A.length - s) else []
  let dA := if s > 0 then (A.take (A.length - s)).drop p else A.drop p
  let dB := if s > 0 then (B.take (B.length - s)).drop p else B.drop p
  (instrPre ++ instrSuf, dA, dB)

end ValidateTokens

namespace GenerateCharts

/-- The per-domain savings formula of `plot_token_savings` in
generate_charts.py: `(1 - fmt_tokens / json_tokens) * 100`, with Python
division that raises on a zero denominator. -/
def chart_savings_pct (fmtTok jsonTok : ℚ) : Option ℚ :=
  (pydiv fmtTok jsonTok).map fun r => (1 - r) * 100

/-- The full bar computation of `plot_token_savings` for one domain and
one `(provider, fmt)` group: both token counts are fetched with
`.get(key, 1)` before the savings formula is applied. -/
def plot_savings (tokens : List ((String × String) × Nat))
    (provider fmt : String) : Option ℚ :=
  chart_savings_pct (dget tokens (provider, fmt) 1)
    (dget tokens (provider, "json") 1)

/-- The section-bounding slice of `load_from_results_dir` in
generate_charts.py: `text[text.find(startM):text.find(nextM)]`. -/
def section_slice (text startM nextM : List Char) : List Char :=
  pySlice text (strFind text startM) (strFind text nextM)

end GenerateCharts

end TeaLeaf

/-! ## Theorems -/

namespace TeaLeaf

theorem leadsWith_append_self (p r : List Char) : leadsWith p (p ++ r) = true := by
  induction p with
  | nil => rfl
  | cons x ps ih => simp [leadsWith, ih]

theorem leadsWith_of_leadsWith_append (p q l : List Char)
    (h : leadsWith (p ++ q) l = true) : leadsWith p l = true := by
  induction p generalizing l with
  | nil => rfl
  | cons x ps ih =>
    cases l with
    | nil => simp [leadsWith] at h
    | cons y ls =>
      simp only [List.cons_append, leadsWith, Bool.and_eq_true] at h ⊢
      exact ⟨h.1, ih ls h.2⟩

theorem leadsWith_append_of_le (p a b : List Char) (h : p.length ≤ a.length) :
    leadsWith p (a ++ b) = leadsWith p a := by
  induction p generalizing a with
  | nil => rfl
  | cons x ps ih =>
    cases a with
    | nil => simp at h
    | cons y as =>
      simp only [List.length_cons, Nat.add_le_add_iff_right] at h
      simp only [List.cons_append, leadsWith, List.append_eq, ih as h]

theorem findSub_nil (pat : List Char) :
    findSub [] pat = if leadsWith pat [] then some 0 else none := by
  unfold findSub
  rfl

theorem findSub_cons (c : Char) (t pat : List Char) :
    findSub (c :: t) pat =
      if leadsWith pat (c :: t) then some 0
      else (findSub t pat).map (· + 1) := by
  conv_lhs => unfold findSub

theorem findSub_isSome_of_append (text p q : List Char)
    (h : (findSub text (p ++ q)).isSome) : (findSub text p).isSome := by
  induction text with
  | nil =>
    rw [findSub_nil] at h ⊢
    by_cases hl : leadsWith (p ++ q) [] = true
    · have hp : p = [] := by
        cases hp : p with
        | nil => rfl
        | cons x ps =>
          rw [hp, List.cons_append] at hl
          simp [leadsWith] at hl
      subst hp
      decide
    · rw [if_neg hl] at h
      simp at h
  | cons c t ih =>
    rw [findSub_cons] at h ⊢
    by_cases hl : leadsWith (p ++ q) (c :: t) = true
    · rw [if_pos (leadsWith_of_leadsWith_append p q _ hl)]
      simp
    · rw [if_neg hl] at h
      by_cases hp : leadsWith p (c :: t) = true
      · rw [if_pos hp]
        simp
      · rw [if_neg hp]
        simp only [Option.isSome_map'] at h ⊢
        exact ih h

theorem findSub_le_length (text pat : List Char) :
    ∀ i, findSub text pat = some i → i ≤ text.length := by
  induction text with
  | nil =>
    intro i h
    rw [findSub_nil] at h
    by_cases hl : leadsWith pat [] = true
    · rw [if_pos hl] at h
      cases h
      simp
    · rw [if_neg hl] at h
      cases h
  | cons c t ih =>
    intro i h
    rw [findSub_cons] at h
    by_cases hl : leadsWith pat (c :: t) = true
    · rw [if_pos hl] at h
      cases h
      simp
    · rw [if_neg hl] at h
      rw [Option.map_eq_some'] at h
      obtain ⟨j, hj, rfl⟩ := h
      have := ih j hj
      simp only [List.length_cons]
      omega

theorem endsWith_append_self (x s : List Char) : endsWith (x ++ s) s = true := by
  unfold endsWith
  rw [List.reverse_append]
  exact leadsWith_append_self _ _

theorem endsWith_append_right (x y s : List Char) (h : s.length ≤ y.length) :
    endsWith (x ++ y) s = endsWith y s := by
  unfold endsWith
  rw [List.reverse_append]
  exact leadsWith_append_of_le s.reverse y.reverse x.reverse (by simpa using h)

theorem stripSuf (x s : List Char) : removeSuf (x ++ s) s = x := by
  unfold removeSuf
  rw [endsWith_append_self]
  simp only [if_true, List.length_append, Nat.add_sub_cancel]
  exact List.take_left x s

theorem take_pre_of_append (x s : List Char) :
    (x ++ s).take ((x ++ s).length - s.length) = x := by
  rw [List.length_append, Nat.add_sub_cancel]
  exact List.take_left x s

theorem upper_lower_ok : ∀ c ∈ okChars, (Char.toLower c).toUpper = c := by decide

theorem pyUpper_pyLower (l : List Char) (h : ∀ c ∈ l, charOK c) :
    pyUpper (pyLower l) = l := by
  induction l with
  | nil => rfl
  | cons c t ih =>
    have hc : charOK c := h c (by simp)
    have ht : ∀ x ∈ t, charOK x := fun x hx => h x (by simp [hx])
    simp only [pyLower, pyUpper, List.map_cons]
    rw [show List.map Char.toUpper (List.map Char.toLower t) = t from ih ht]
    rw [upper_lower_ok c hc]

theorem markerVT_eq :
    ValidateTokens.markerVT = CountTokens.markerCT ++ "\n\n".toList := by decide

/-- C2 (amended): when the prompt marker is absent, the count_tokens.py
extractor returns the entire file content unchanged; the
validate_tokens.py extractor instead raises `ValueError` (modelled as
`none`). -/
theorem C2_extract_prompt_marker_absent (text : List Char)
    (h : findSub text CountTokens.markerCT = none) :
    CountTokens.extract_prompt text = text ∧
    ValidateTokens.extract_prompt text = none := by
  constructor
  · unfold CountTokens.extract_prompt
    rw [h]
  · have hv : findSub text ValidateTokens.markerVT = none := by
      by_contra hne
      have h1 : (findSub text ValidateTokens.markerVT).isSome :=
        Option.ne_none_iff_isSome.mp hne
      rw [markerVT_eq] at h1
      have h2 := findSub_isSome_of_append text _ _ h1
      rw [h] at h2
      exact absurd h2 (by simp)
    unfold ValidateTokens.extract_prompt
    rw [hv]
    rfl

/-- C2 witness: a concrete marker-free file content. -/
theorem C2_extract_prompt_marker_absent_witness :
    CountTokens.extract_prompt "hello".toList = "hello".toList ∧
    ValidateTokens.extract_prompt "hello".toList = none :=
  C2_extract_prompt_marker_absent "hello".toList (by decide)

/-- C2 counterexample: on a marker-free file the validate_tokens.py
extractor does not return the content; it fails (raises `ValueError`),
refuting the claim that prompt extraction never fails. -/
theorem C2_counterexample :
    findSub "hello".toList CountTokens.markerCT = none ∧
    ValidateTokens.extract_prompt "hello".toList ≠ some "hello".toList ∧
    ValidateTokens.extract_prompt "hello".toList = none := by
  refine ⟨by decide, by decide, by decide⟩

/-- C9: filename round-trip. For every task ID over uppercase ASCII
letters, digits, and hyphens and every format in the closed set,
`parse_filename` applied to the lowercased on-disk filename returns
exactly the original task ID and format. -/
theorem C9_parse_filename_roundtrip (task f : List Char)
    (hchars : ∀ c ∈ task, charOK c) (hf : f ∈ CountTokens.FORMATS) :
    CountTokens.parse_filename (pyLower task ++ ('-' :: f) ++ ".txt".toList) =
      (task, f) := by
  have hupper : pyUpper (pyLower task) = task := pyUpper_pyLower task hchars
  unfold CountTokens.parse_filename
  rw [stripSuf]
  simp only [CountTokens.FORMATS, List.mem_cons, List.not_mem_nil, or_false] at hf
  rcases hf with rfl | rfl | rfl
  · have e1 : endsWith (pyLower task ++ ('-' :: "tl".toList)) ('-' :: "tl".toList)
        = true := endsWith_append_self _ _
    simp only [CountTokens.FORMATS, CountTokens.pfLoop, e1, if_true]
    rw [take_pre_of_append, hupper]
  · have e1 : endsWith (pyLower task ++ ('-' :: "json".toList)) ('-' :: "tl".toList)
        = false := by
      rw [endsWith_append_right _ _ _ (by decide)]
      decide
    have e2 : endsWith (pyLower task ++ ('-' :: "json".toList)) ('-' :: "json".toList)
        = true := endsWith_append_self _ _
    simp only [CountTokens.FORMATS, CountTokens.pfLoop, e1, e2, if_true,
      Bool.false_eq_true, if_false]
    rw [take_pre_of_append, hupper]
  · have e1 : endsWith (pyLower task ++ ('-' :: "toon".toList)) ('-' :: "tl".toList)
        = false := by
      rw [endsWith_append_right _ _ _ (by decide)]
      decide
    have e2 : endsWith (pyLower task ++ ('-' :: "toon".toList)) ('-' :: "json".toList)
        = false := by
      rw [endsWith_append_right _ _ _ (by decide)]
      decide
    have e3 : endsWith (pyLower task ++ ('-' :: "toon".toList)) ('-' :: "toon".toList)
        = true := endsWith_append_self _ _
    simp only [CountTokens.FORMATS, CountTokens.pfLoop, e1, e2, e3, if_true,
      Bool.false_eq_true, if_false]
    rw [take_pre_of_append, hupper]

/-- C9 witness: the concrete filename of the spec example. -/
theorem C9_parse_filename_roundtrip_witness :
    CountTokens.parse_filename
        (pyLower "FIN-001".toList ++ ('-' :: "tl".toList) ++ ".txt".toList) =
      ("FIN-001".toList, "tl".toList) :=
  C9_parse_filename_roundtrip "FIN-001".toList "tl".toList (by decide) (by decide)

/-- C3 (amended): the ratio computations of count_tokens.py and
validate_tokens.py all yield 0 on a zero denominator, and equal
`(a - b) / b * 100` on a non-zero denominator. -/
theorem C3_zero_denominator_guards (a : Nat) (q : ℚ) :
    CountTokens.fmt_vs_json_pct a 0 = 0 ∧
    ValidateTokens.data_savings_pct a 0 = 0 ∧
    ValidateTokens.agg_diff_pct q 0 = 0 ∧
    (∀ b : Nat, b ≠ 0 →
      CountTokens.fmt_vs_json_pct a b = ((a : ℚ) - (b : ℚ)) / (b : ℚ) * 100) := by
  refine ⟨?_, ?_, ?_, ?_⟩
  · simp [CountTokens.fmt_vs_json_pct]
  · simp [ValidateTokens.data_savings_pct]
  · simp [ValidateTokens.agg_diff_pct]
  · intro b hb
    simp [CountTokens.fmt_vs_json_pct, hb]

/-- C3 witness: concrete zero and non-zero denominators. -/
theorem C3_zero_denominator_guards_witness :
    CountTokens.fmt_vs_json_pct 3 0 = 0 ∧
    ValidateTokens.data_savings_pct 3 0 = 0 ∧
    ValidateTokens.agg_diff_pct 7 0 = 0 ∧
    CountTokens.fmt_vs_json_pct 3 2 =
      (((3 : Nat) : ℚ) - ((2 : Nat) : ℚ)) / ((2 : Nat) : ℚ) * 100 :=
  ⟨(C3_zero_denominator_guards 3 7).1, (C3_zero_denominator_guards 3 7).2.1,
   (C3_zero_denominator_guards 3 7).2.2.1,
   (C3_zero_denominator_guards 3 7).2.2.2 2 (by norm_num)⟩

/-- C3 counterexample: in generate_charts.py `plot_token_savings`, a
stored token count of 0 for the `(provider, json)` key reaches Python
division with a zero denominator, which raises `ZeroDivisionError`
(modelled `none`) instead of yielding the defined value 0. -/
theorem C3_counterexample :
    GenerateCharts.plot_savings
        [(("anthropic", "tl"), 5), (("anthropic", "json"), 0)] "anthropic" "tl" =
      none ∧
    GenerateCharts.chart_savings_pct 5 0 = none := by
  exact ⟨by decide, by decide⟩

/-- C4 (amended): the weighted total savings is the savings formula
applied to the summed numerator and summed denominator, the median is
the median of per-task percentages, and the two values can diverge when
task sizes vary (they are not equal in general). -/
theorem C4_weighted_total_and_median (rs : List (Nat × Nat))
    (h : 0 < (rs.map Prod.snd).sum) :
    ValidateTokens.total_data_savings rs =
      (1 - ((rs.map Prod.fst).sum : ℚ) / ((rs.map Prod.snd).sum : ℚ)) * 100 ∧
    ValidateTokens.total_data_savings [(1, 2), (90, 100)] ≠
      ValidateTokens.median_savings [(1, 2), (90, 100)] ∧
    ValidateTokens.median_savings [(1, 2), (90, 100)] =
      (ValidateTokens.data_savings_pct 90 100 +
        ValidateTokens.data_savings_pct 1 2) / 2 := by
  refine ⟨?_, ?_, ?_⟩
  · simp only [ValidateTokens.total_data_savings, if_pos h]
  · have h1 : ValidateTokens.total_data_savings [(1, 2), (90, 100)] = 550 / 51 := by
      norm_num [ValidateTokens.total_data_savings]
    have h2 : ValidateTokens.median_savings [(1, 2), (90, 100)] = 30 := by
      norm_num [ValidateTokens.median_savings, ValidateTokens.data_savings_pct,
        pysorted, insertAsc]
    rw [h1, h2]
    norm_num
  · have h2 : ValidateTokens.median_savings [(1, 2), (90, 100)] = 30 := by
      norm_num [ValidateTokens.median_savings, ValidateTokens.data_savings_pct,
        pysorted, insertAsc]
    rw [h2]
    norm_num [ValidateTokens.data_savings_pct]

/-- C4 witness: a concrete non-zero denominator sum. -/
theorem C4_weighted_total_and_median_witness :
    ValidateTokens.total_data_savings [(1, 2)] =
      (1 - ((([(1, 2)] : List (Nat × Nat)).map Prod.fst).sum : ℚ) /
        ((([(1, 2)] : List (Nat × Nat)).map Prod.snd).sum : ℚ)) * 100 ∧
    ValidateTokens.total_data_savings [(1, 2), (90, 100)] ≠
      ValidateTokens.median_savings [(1, 2), (90, 100)] ∧
    ValidateTokens.median_savings [(1, 2), (90, 100)] =
      (ValidateTokens.data_savings_pct 90 100 +
        ValidateTokens.data_savings_pct 1 2) / 2 :=
  C4_weighted_total_and_median [(1, 2)] (by decide)

/-- C4 counterexample: the task list `[(1, 2), (2, 4)]` has varying task
sizes, yet the weighted total savings and the median savings are equal
(both 50), refuting the claim that the two diverge whenever task sizes
vary. -/
theorem C4_counterexample :
    ValidateTokens.total_data_savings [(1, 2), (2, 4)] =
      ValidateTokens.median_savings [(1, 2), (2, 4)] ∧
    ValidateTokens.total_data_savings [(1, 2), (2, 4)] = 50 := by
  have h1 : ValidateTokens.total_data_savings [(1, 2), (2, 4)] = 50 := by
    norm_num [ValidateTokens.total_data_savings]
  have h2 : ValidateTokens.median_savings [(1, 2), (2, 4)] = 50 := by
    norm_num [ValidateTokens.median_savings, ValidateTokens.data_savings_pct,
      pysorted, insertAsc]
  exact ⟨h1.trans h2.symm, h1⟩

/-- C5: the validation verdict over the absolute relative difference of
the two totals is PASS up to 1 percent inclusive, MARGINAL up to 5
percent inclusive, and FAIL above 5 percent. -/
theorem C5_verdict_thresholds (totalTl apiTotal : ℚ) :
    (ValidateTokens.agg_diff_pct totalTl apiTotal ≤ 1 →
      ValidateTokens.verdict (ValidateTokens.agg_diff_pct totalTl apiTotal)
        = "PASS") ∧
    (1 < ValidateTokens.agg_diff_pct totalTl apiTotal →
      ValidateTokens.agg_diff_pct totalTl apiTotal ≤ 5 →
      ValidateTokens.verdict (ValidateTokens.agg_diff_pct totalTl apiTotal)
        = "MARGINAL") ∧
    (5 < ValidateTokens.agg_diff_pct totalTl apiTotal →
      ValidateTokens.verdict (ValidateTokens.agg_diff_pct totalTl apiTotal)
        = "FAIL") := by
  set d := ValidateTokens.agg_diff_pct totalTl apiTotal with hd
  refine ⟨?_, ?_, ?_⟩
  · intro h
    rw [ValidateTokens.verdict, if_pos h]
  · intro h1 h2
    rw [ValidateTokens.verdict, if_neg (by linarith), if_pos h2]
  · intro h
    rw [ValidateTokens.verdict, if_neg (by linarith), if_neg (by linarith)]

/-- C5 witness: totals that differ by exactly 1, 3 and 6 percent. -/
theorem C5_verdict_thresholds_witness :
    ValidateTokens.verdict (ValidateTokens.agg_diff_pct 101 100) = "PASS" ∧
    ValidateTokens.verdict (ValidateTokens.agg_diff_pct 103 100) = "MARGINAL" ∧
    ValidateTokens.verdict (ValidateTokens.agg_diff_pct 106 100) = "FAIL" := by
  have h1 : ValidateTokens.agg_diff_pct 101 100 = 1 := by
    norm_num [ValidateTokens.agg_diff_pct, abs_of_nonneg]
  have h3 : ValidateTokens.agg_diff_pct 103 100 = 3 := by
    norm_num [ValidateTokens.agg_diff_pct, abs_of_nonneg]
  have h6 : ValidateTokens.agg_diff_pct 106 100 = 6 := by
    norm_num [ValidateTokens.agg_diff_pct, abs_of_nonneg]
  exact ⟨(C5_verdict_thresholds 101 100).1 (by rw [h1]),
    (C5_verdict_thresholds 103 100).2.1 (by rw [h3]; norm_num)
      (by rw [h3]; norm_num),
    (C5_verdict_thresholds 106 100).2.2 (by rw [h6]; norm_num)⟩

theorem pySlice_nonneg (l : List Char) (a b : Nat)
    (ha : a ≤ l.length) (hb : b ≤ l.length) :
    pySlice l (a : Int) (b : Int) = (l.take b).drop a := by
  simp only [pySlice]
  rw [if_neg (by omega : ¬ ((b : Int) < 0)), if_neg (by omega : ¬ ((a : Int) < 0))]
  have h3 : (min (b : Int) (l.length : Int)).toNat = b := by omega
  have h4 : (min (a : Int) (l.length : Int)).toNat = a := by omega
  rw [h3, h4]

theorem pySlice_neg_one (l : List Char) (a : Nat) (ha : a ≤ l.length) :
    pySlice l (a : Int) (-1) = (l.take (l.length - 1)).drop a := by
  simp only [pySlice]
  rw [if_pos (by norm_num : (-1 : Int) < 0), if_neg (by omega : ¬ ((a : Int) < 0))]
  have h3 : (max ((l.length : Int) + (-1)) 0).toNat = l.length - 1 := by omega
  have h4 : (min (a : Int) (l.length : Int)).toNat = a := by omega
  rw [h3, h4]

/-- C8 (amended): when both markers occur, the section slice is bounded
between the first occurrence of the start marker and the first
occurrence of the next marker; when the next marker is absent,
`str.find` yields -1 and the slice ends one character before the end of
the document, not at the end. -/
theorem C8_section_slice_bounds (text s n : List Char) :
    (∀ i j : Nat, findSub text s = some i → findSub text n = some j →
      GenerateCharts.section_slice text s n = (text.take j).drop i) ∧
    (∀ i : Nat, findSub text s = some i → findSub text n = none →
      GenerateCharts.section_slice text s n =
        (text.take (text.length - 1)).drop i) := by
  constructor
  · intro i j hi hj
    have hi' := findSub_le_length text s i hi
    have hj' := findSub_le_length text n j hj
    unfold GenerateCharts.section_slice strFind
    rw [hi, hj]
    exact pySlice_nonneg text i j hi' hj'
  · intro i hi hn
    have hi' := findSub_le_length text s i hi
    unfold GenerateCharts.section_slice strFind
    rw [hi, hn]
    exact pySlice_neg_one text i hi'

/-- C8 witness: a document with both markers, and one without the next
marker. -/
theorem C8_section_slice_bounds_witness :
    GenerateCharts.section_slice "responses:X# Analysis".toList
        "responses:".toList "# Analysis".toList =
      ("responses:X# Analysis".toList.take 11).drop 0 ∧
    GenerateCharts.section_slice "responses:ab".toList
        "responses:".toList "# Analysis".toList =
      ("responses:ab".toList.take ("responses:ab".toList.length - 1)).drop 0 :=
  ⟨(C8_section_slice_bounds "responses:X# Analysis".toList
      "responses:".toList "# Analysis".toList).1 0 11 (by decide) (by decide),
   (C8_section_slice_bounds "responses:ab".toList
      "responses:".toList "# Analysis".toList).2 0 (by decide) (by decide)⟩

/-- C8 counterexample: the start marker occurs at index 0 and the next
marker is absent, yet the section slice is not the rest of the document:
the final character is dropped, refuting the claim that the section
extends to the end of the document. -/
theorem C8_counterexample :
    findSub "responses:ab".toList "responses:".toList = some 0 ∧
    findSub "responses:ab".toList "# Analysis".toList = none ∧
    GenerateCharts.section_slice "responses:ab".toList
        "responses:".toList "# Analysis".toList = "responses:a".toList ∧
    "responses:a".toList ≠ "responses:ab".toList := by
  exact ⟨by decide, by decide, by decide, by decide⟩

theorem dlookup_dinsert (m : List ((String × String) × Nat))
    (k k' : String × String) (v : Nat) :
    dlookup (dinsert m k v) k' = if k = k' then some v else dlookup m k' := by
  induction m with
  | nil =>
    simp only [dinsert, dlookup]
  | cons a t ih =>
    obtain ⟨ak, av⟩ := a
    simp only [dinsert]
    by_cases hak : ak = k
    · subst hak
      simp only [if_pos rfl, dlookup]
      by_cases hkk : ak = k'
      · simp [hkk]
      · simp [hkk]
    · rw [if_neg hak]
      simp only [dlookup, ih]
      by_cases hkk : k = k'
      · subst hkk
        rw [if_neg hak, if_pos rfl, if_pos rfl]
      · by_cases hak' : ak = k'
        · simp [hak', hkk]
        · simp [hak', hkk]

theorem getLast?_cons_eq (a : Nat) (l : List Nat) :
    (a :: l).getLast? =
      match l.getLast? with
      | some v => some v
      | none => some a := by
  induction l generalizing a with
  | nil => rfl
  | cons b t ih =>
    rw [List.getLast?_cons_cons]
    rw [ih b]
    cases ht : t.getLast? with
    | some v => rfl
    | none => rfl

theorem parse_loop_lookup (rows : List (String × String × Nat))
    (m : List ((String × String) × Nat)) (t p : String) :
    dlookup (rows.foldl (fun acc r => dinsert acc (r.1, r.2.1) r.2.2) m) (t, p) =
      match ((rows.filter fun r => r.1 == t && r.2.1 == p).map
          fun r => r.2.2).getLast? with
      | some v => some v
      | none => dlookup m (t, p) := by
  induction rows generalizing m with
  | nil => rfl
  | cons r rs ih =>
    simp only [List.foldl_cons, List.filter_cons]
    by_cases hc : (r.1 == t && r.2.1 == p) = true
    · simp only [hc, if_pos]
      rw [List.map_cons, getLast?_cons_eq, ih]
      have hk : (r.1, r.2.1) = (t, p) := by
        simp only [Bool.and_eq_true, beq_iff_eq] at hc
        simp [hc.1, hc.2]
      cases hlast : ((rs.filter fun r => r.1 == t && r.2.1 == p).map
          fun r => r.2.2).getLast? with
      | some v => rfl
      | none =>
        simp only []
        rw [dlookup_dinsert, hk, if_pos rfl]
    · simp only [hc, if_neg, Bool.false_eq_true, if_false]
      rw [ih]
      have hk : (r.1, r.2.1) ≠ (t, p) := by
        intro he
        apply hc
        rw [Prod.mk.injEq] at he
        simp [he.1, he.2]
      cases hlast : ((rs.filter fun r => r.1 == t && r.2.1 == p).map
          fun r => r.2.2).getLast? with
      | some v => rfl
      | none =>
        simp only []
        rw [dlookup_dinsert, if_neg hk]

/-- C10: `parse_api_tokens` never fails and implements last-row-wins: for
every row sequence and key pair, the stored input-token count is that of
the last row matching the pair, each later match overwriting earlier
ones. -/
theorem C10_parse_api_tokens_last_wins (rows : List (String × String × Nat))
    (t p : String) :
    dlookup (ValidateTokens.parse_api_tokens rows) (t, p) =
      ((rows.filter fun r => r.1 == t && r.2.1 == p).map
        fun r => r.2.2).getLast? := by
  unfold ValidateTokens.parse_api_tokens
  rw [parse_loop_lookup]
  cases hlast : ((rows.filter fun r => r.1 == t && r.2.1 == p).map
      fun r => r.2.2).getLast? with
  | some v => rfl
  | none => rfl

end TeaLeaf

namespace TeaLeaf

namespace ValidateTokens

theorem commonPreLen_le_left : ∀ a b : List Char, commonPreLen a b ≤ a.length := by
  intro a
  induction a with
  | nil => intro b; cases b <;> simp [commonPreLen]
  | cons x xs ih =>
    intro b
    cases b with
    | nil => simp [commonPreLen]
    | cons y ys =>
      by_cases hxy : x = y <;> simp [commonPreLen, hxy]
      exact ih ys

theorem commonPreLen_le_right : ∀ a b : List Char, commonPreLen a b ≤ b.length := by
  intro a
  induction a with
  | nil => intro b; cases b <;> simp [commonPreLen]
  | cons x xs ih =>
    intro b
    cases b with
    | nil => simp [commonPreLen]
    | cons y ys =>
      by_cases hxy : x = y <;> simp [commonPreLen, hxy]
      exact ih ys

theorem take_eq_of_le_commonPreLen :
    ∀ (a b : List Char) (s : Nat), s ≤ commonPreLen a b → a.take s = b.take s := by
  intro a
  induction a with
  | nil =>
    intro b s h
    cases b <;> simp [commonPreLen] at h <;> simp [h]
  | cons x xs ih =>
    intro b s h
    cases b with
    | nil => simp [commonPreLen] at h; simp [h]
    | cons y ys =>
      by_cases hxy : x = y
      · subst hxy
        simp [commonPreLen] at h
        cases s with
        | zero => simp
        | succ t =>
          simp only [List.take_succ_cons]
          rw [ih ys t (by omega)]
      · simp [commonPreLen, hxy] at h
        simp [h]

theorem commonPreLen_self : ∀ a : List Char, commonPreLen a a = a.length := by
  intro a
  induction a with
  | nil => simp [commonPreLen]
  | cons x xs ih => simp [commonPreLen, ih]

theorem sufLen_facts (A B : List Char) :
    0 ≤ sufLenInt A B ∧
    commonPreLen A B + (sufLenInt A B).toNat ≤ min A.length B.length ∧
    (sufLenInt A B).toNat ≤ commonPreLen A.reverse B.reverse := by
  have h1 := commonPreLen_le_left A B
  have h2 := commonPreLen_le_right A B
  simp only [sufLenInt]
  split <;> refine ⟨by omega, by omega, by omega⟩

/-- Branch-free form of the splitter: both branches of each
`if suffix_len > 0` test agree with the general slice formula. -/
theorem split_eq_slices (A B : List Char) :
    split_instruction_and_data A B =
      (A.take (commonPreLen A B) ++ A.drop (A.length - (sufLenInt A B).toNat),
       (A.take (A.length - (sufLenInt A B).toNat)).drop (commonPreLen A B),
       (B.take (B.length - (sufLenInt A B).toNat)).drop (commonPreLen A B)) := by
  unfold split_instruction_and_data
  by_cases hs : (sufLenInt A B).toNat > 0
  · simp [hs]
  · have hz : (sufLenInt A B).toNat = 0 := by omega
    simp [hz, List.drop_length, List.take_length]

theorem drop_sub_eq_of_suffix_run (A B : List Char) (s : Nat)
    (h : s ≤ commonPreLen A.reverse B.reverse) :
    A.drop (A.length - s) = B.drop (B.length - s) := by
  have hrev : A.reverse.take s = B.reverse.take s :=
    take_eq_of_le_commonPreLen A.reverse B.reverse s h
  have hA : A.reverse.take s = (A.drop (A.length - s)).reverse := List.take_reverse
  have hB : B.reverse.take s = (B.drop (B.length - s)).reverse := List.take_reverse
  have := hA ▸ hB ▸ hrev
  have := congrArg List.reverse this
  simpa using this

theorem recon_slices (l : List Char) (p s : Nat) (h : p + s ≤ l.length) :
    l.take p ++ ((l.take (l.length - s)).drop p ++ l.drop (l.length - s)) = l := by
  have h1 : (l.take (l.length - s)).take p = l.take p := by
    rw [List.take_take]
    congr 1
    omega
  calc l.take p ++ ((l.take (l.length - s)).drop p ++ l.drop (l.length - s))
      = ((l.take (l.length - s)).take p ++ (l.take (l.length - s)).drop p)
          ++ l.drop (l.length - s) := by rw [h1, List.append_assoc]
    _ = l.take (l.length - s) ++ l.drop (l.length - s) := by
          rw [List.take_append_drop]
    _ = l := List.take_append_drop _ _

/-- C1: for all strings A and B, `split_instruction_and_data A B` returns
`(sharedText, dataA, dataB)` with `sharedText = P ++ S` such that
`P ++ dataA ++ S = A` and `P ++ dataB ++ S = B`: the split is a lossless
partition of both inputs. -/
theorem C1_split_lossless_partition (A B : List Char) :
    ∃ P S : List Char,
      (split_instruction_and_data A B).1 = P ++ S ∧
      P ++ ((split_instruction_and_data A B).2.1 ++ S) = A ∧
      P ++ ((split_instruction_and_data A B).2.2 ++ S) = B := by
  obtain ⟨-, hps, hsuf⟩ := sufLen_facts A B
  set p := commonPreLen A B with hp
  set s := (sufLenInt A B).toNat with hs
  refine ⟨A.take p, A.drop (A.length - s), ?_, ?_, ?_⟩
  · rw [split_eq_slices]
  · rw [split_eq_slices]
    exact recon_slices A p s (by omega)
  · rw [split_eq_slices]
    have hpre : A.take p = B.take p := take_eq_of_le_commonPreLen A B p (le_refl _)
    have hdrop : A.drop (A.length - s) = B.drop (B.length - s) :=
      drop_sub_eq_of_suffix_run A B s hsuf
    simp only [hpre, hdrop]
    exact recon_slices B p s (by omega)

/-- C6: the splitter never produces a negative-length slice: the clamped
suffix length is non-negative and together with the common leading run
never exceeds the shorter input; the degenerate inputs of the spec
evaluate to well-defined parts. -/
theorem C6_split_no_negative_slice (A B : List Char) :
    0 ≤ sufLenInt A B ∧
    commonPreLen A B + (sufLenInt A B).toNat ≤ min A.length B.length ∧
    split_instruction_and_data [] [] = ([], [], []) ∧
    split_instruction_and_data ('x' :: []) [] = ([], 'x' :: [], []) := by
  obtain ⟨h0, hps, -⟩ := sufLen_facts A B
  exact ⟨h0, hps, by decide, by decide⟩

/-- C7: splitting a string against itself yields empty data parts and the
entire string as the shared text. -/
theorem C7_split_self (A : List Char) :
    split_instruction_and_data A A = (A, [], []) := by
  have hp : commonPreLen A A = A.length := commonPreLen_self A
  have hs : (sufLenInt A A).toNat = 0 := by
    have hr : commonPreLen A.reverse A.reverse = A.length := by
      simpa using commonPreLen_self A.reverse
    simp only [sufLenInt, hp, hr]
    split <;> omega
  rw [split_eq_slices, hp, hs]
  simp [List.drop_length, List.take_length]

end ValidateTokens

end TeaLeaf

